import Mathlib

/-!
Shallow embedding of the SDN load-balancing control plane
(`src/controller/ryu_utils.py` and `src/controller/ryu_lb_basic.py`).

Python floats are modelled as rationals (`ℚ`); Python's unbounded `int` as
`Int`/`Nat`; Python `dict` (which preserves insertion order and replaces the
value in place on key collision) as an association list with the
`dictSet`/`dlookup` operations below.  Fallible operations return `Option`.
-/

namespace Cloud

/-- Model of Python `dict` insertion `d[k] = v`: if the key is present, the
value is replaced in place (position preserved); otherwise the pair is
appended at the end, matching insertion-order semantics. -/
def dictSet {V : Type} (d : List (String × V)) (k : String) (v : V) :
    List (String × V) :=
  if d.any (fun p => p.1 = k) then
    d.map (fun p => if p.1 = k then (k, v) else p)
  else
    d ++ [(k, v)]

/-- Lookup of a key in an association list (first match), modelling `d[k]`
/ `d.get(k)` on a Python dict. -/
def dlookup {V : Type} (k : String) : List (String × V) → Option V
  | [] => none
  | p :: rest => if p.1 = k then some p.2 else dlookup k rest

/-- Running minimum underlying Python's `min(..., key=f)`: scan the tail,
replacing the accumulator only on a strictly smaller key, so the earliest
element of minimal key survives. -/
def pickMin {α β : Type} [LinearOrder β] (f : α → β) (x : α) (xs : List α) : α :=
  xs.foldl (fun acc y => if f y < f acc then y else acc) x

/-- Running maximum underlying Python's `max(..., key=f)`: scan the tail,
replacing the accumulator only on a strictly larger key, so the earliest
element of maximal key survives. -/
def pickMax {α β : Type} [LinearOrder β] (f : α → β) (x : α) (xs : List α) : α :=
  xs.foldl (fun acc y => if f acc < f y then y else acc) x

/-- Python's `min(servers, key=f)`: first element with minimal key
(ties keep the earliest element encountered). `none` on an empty list. -/
def pyMinBy {α β : Type} [LinearOrder β] (f : α → β) : List α → Option α
  | [] => none
  | x :: xs => some (pickMin f x xs)

/-- Python's `max(servers, key=f)`: first element with maximal key
(ties keep the earliest element encountered). `none` on an empty list. -/
def pyMaxBy {α β : Type} [LinearOrder β] (f : α → β) : List α → Option α
  | [] => none
  | x :: xs => some (pickMax f x xs)

/-- Embedding of the `ServerMetrics` dataclass of `ryu_utils.py`. -/
structure ServerMetrics where
  ip : String
  port : Int
  healthy : Bool := true
  last_latency_ms : ℚ := 0
  cpu_percent : ℚ := 0
  memory_percent : ℚ := 0
  active_connections : Int := 0
  total_requests : Int := 0
  last_health_check : ℚ := 0
  weight : ℚ := 1
deriving Repr, DecidableEq

/-- The `server_id` property: `f"{self.ip}:{self.port}"`. -/
def ServerMetrics.server_id (s : ServerMetrics) : String :=
  s.ip ++ ":" ++ toString s.port

/-- Embedding of the `LoadBalancingAlgorithm` enum. -/
inductive LoadBalancingAlgorithm : Type
  | round_robin
  | least_connections
  | latency_weighted
  | weighted_round_robin
deriving Repr, DecidableEq

/-- Mutable state of the `LoadBalancer` class: the registry dict
`self.servers` (keyed by server id, insertion-ordered), the current
algorithm, the shared round-robin cursor and the `self.request_counts`
dict.  (The health-monitor thread itself is modelled separately by
`check_server_health`.) -/
structure LoadBalancer where
  servers : List (String × ServerMetrics)
  current_algorithm : LoadBalancingAlgorithm := .round_robin
  round_robin_index : Nat := 0
  request_counts : List (String × Int) := []
deriving Repr, DecidableEq

/-- The server-id string built in `LoadBalancer.__init__`:
`server_id = f"{ip}:{port}"`. -/
def serverId (ip : String) (port : Int) : String :=
  ip ++ ":" ++ toString port

/-- A freshly initialized descriptor `ServerMetrics(ip=ip, port=port)`:
every other field keeps its dataclass default. -/
def freshMetrics (ip : String) (port : Int) : ServerMetrics :=
  { ip := ip, port := port }

/-- Embedding of `LoadBalancer.__init__` (the state part: registry and
request-count dicts built by one pass over the configured pairs; the
health-monitor thread start is I/O and not part of the state). -/
def LoadBalancer.init (servers : List (String × Int)) : LoadBalancer :=
  { servers := servers.foldl
      (fun d p => dictSet d (serverId p.1 p.2) (freshMetrics p.1 p.2)) [],
    current_algorithm := .round_robin,
    round_robin_index := 0,
    request_counts := servers.foldl
      (fun d p => dictSet d (serverId p.1 p.2) 0) [] }

/-- The healthy snapshot `[s for s in self.servers.values() if s.healthy]`. -/
def healthy_servers (lb : LoadBalancer) : List ServerMetrics :=
  (lb.servers.map Prod.snd).filter (fun s => s.healthy)

/-- Embedding of `_round_robin_select`: pick `servers[index % len(servers)]`
and advance the cursor by one; `None` (cursor untouched) on an empty list. -/
def round_robin_select (servers : List ServerMetrics) (index : Nat) :
    Option ServerMetrics × Nat :=
  if servers.isEmpty then (none, index)
  else (servers.get? (index % servers.length), index + 1)

/-- Embedding of `_least_connections_select`:
`min(servers, key=lambda s: s.active_connections)`. -/
def least_connections_select (servers : List ServerMetrics) :
    Option ServerMetrics :=
  pyMinBy (fun s => s.active_connections) servers

/-- The weight computed per server by `_latency_weighted_select`:
`1.0 / last_latency_ms` when positive, else `1.0`. -/
def latWeight (s : ServerMetrics) : ℚ :=
  if 0 < s.last_latency_ms then 1 / s.last_latency_ms else 1

/-- The in-place mutation `server.weight = ...` performed on each healthy
server by `_latency_weighted_select`. -/
def setLatWeight (s : ServerMetrics) : ServerMetrics :=
  { s with weight := latWeight s }

/-- Embedding of `_latency_weighted_select`: recompute every weight, then
return `servers[0]` if the total weight is zero, else
`max(servers, key=lambda s: s.weight)`. -/
def latency_weighted_select (servers : List ServerMetrics) :
    Option ServerMetrics :=
  if servers.isEmpty then none
  else
    let ws := servers.map setLatWeight
    if (ws.map (fun s => s.weight)).sum = 0 then ws.head?
    else pyMaxBy (fun s => s.weight) ws

/-- The weight computed per server by `_weighted_round_robin_select`:
`(max(0.1, 1 - cpu/100) + max(0.1, 1 - mem/100)) / 2`. -/
def wrrWeight (s : ServerMetrics) : ℚ :=
  (max (1/10) (1 - s.cpu_percent / 100) +
   max (1/10) (1 - s.memory_percent / 100)) / 2

/-- The in-place mutation `server.weight = ...` performed on each server by
`_weighted_round_robin_select`. -/
def setWrrWeight (s : ServerMetrics) : ServerMetrics :=
  { s with weight := wrrWeight s }

/-- Embedding of `_weighted_round_robin_select`: recompute every weight,
then `max(servers, key=lambda s: s.weight)`. -/
def weighted_round_robin_select (servers : List ServerMetrics) :
    Option ServerMetrics :=
  pyMaxBy (fun s => s.weight) (servers.map setWrrWeight)

/-- Registry-side effect of the weight-mutating policies: the loop
`for server in servers: server.weight = ...` runs over the healthy
snapshot, whose elements alias the registry's descriptors. -/
def mutateHealthyWeights (upd : ServerMetrics → ServerMetrics)
    (lb : LoadBalancer) : LoadBalancer :=
  { lb with servers := lb.servers.map (fun p => if p.2.healthy then (p.1, upd p.2) else p) }

/-- Embedding of `LoadBalancer.select_server`: filter the healthy snapshot,
return `None` when it is empty, otherwise dispatch on the current
algorithm.  The second component is the post-call state (cursor advance
for round-robin, in-place weight mutations for the weighted policies). -/
def select_server (lb : LoadBalancer) :
    Option ServerMetrics × LoadBalancer :=
  let hs := healthy_servers lb
  if hs.isEmpty then (none, lb)
  else
    match lb.current_algorithm with
    | .round_robin =>
        let r := round_robin_select hs lb.round_robin_index
        (r.1, { lb with round_robin_index := r.2 })
    | .least_connections => (least_connections_select hs, lb)
    | .latency_weighted =>
        (latency_weighted_select hs, mutateHealthyWeights setLatWeight lb)
    | .weighted_round_robin =>
        (weighted_round_robin_select hs, mutateHealthyWeights setWrrWeight lb)

/-- The two field assignments performed by `record_request` on the matched
descriptor: set `last_latency_ms` and bump `total_requests`; every other
field is kept. -/
def recordUpd (latency_ms : ℚ) (s : ServerMetrics) : ServerMetrics :=
  { s with last_latency_ms := latency_ms,
           total_requests := s.total_requests + 1 }

/-- Embedding of `LoadBalancer.record_request`: when the id is a key of the
registry, set that descriptor's `last_latency_ms`, bump `total_requests`,
and bump `request_counts[server_id]` (with `dict.get(..., 0)` default);
otherwise do nothing. -/
def record_request (lb : LoadBalancer) (sid : String) (latency_ms : ℚ) :
    LoadBalancer :=
  if lb.servers.any (fun p => p.1 = sid) then
    { lb with
      servers := lb.servers.map (fun p =>
        if p.1 = sid then (p.1, recordUpd latency_ms p.2) else p),
      request_counts :=
        dictSet lb.request_counts sid
          ((dlookup sid lb.request_counts).getD 0 + 1) }
  else lb

/-- Embedding of `LoadBalancer.get_healthy_servers`. -/
def get_healthy_servers (lb : LoadBalancer) : List ServerMetrics :=
  (lb.servers.map Prod.snd).filter (fun s => s.healthy)

/-! ## Health probing (`_check_server_health`) -/

/-- The body of an HTTP response to the health probe, as seen by
`response.json()` / `health_data.get("metrics", {}).get(..., 0.0)`:
either it fails to parse as JSON (`json()` raises), or it parses and the
two metric keys are each present or absent. -/
inductive ProbeBody : Type
  | malformed
  | parsed (cpu : Option ℚ) (mem : Option ℚ)
deriving Repr, DecidableEq

/-- Outcome of the `requests.get(...)` call in `_check_server_health`:
either the request itself raises (timeout / connection error), or a
response arrives with a status code, a measured round-trip `latency_ms`,
a wall-clock `now` and a body. -/
inductive ProbeResult : Type
  | failure
  | response (status : Nat) (latency_ms : ℚ) (now : ℚ) (body : ProbeBody)
deriving Repr, DecidableEq

/-- Embedding of `_check_server_health`, following the source's statement
order exactly.  On status 200 the code first sets `healthy`,
`last_latency_ms` and `last_health_check`, and only then calls
`response.json()`; a parse failure at that point is caught by the outer
`except`, which sets `healthy = False` — the fields already written stay
written.  Any other exception path and any non-200 status leave all
fields but `healthy` untouched. -/
def check_server_health (s : ServerMetrics) (r : ProbeResult) :
    ServerMetrics :=
  match r with
  | .failure => { s with healthy := false }
  | .response status latency_ms now body =>
    if status = 200 then
      let s1 := { s with healthy := true, last_latency_ms := latency_ms, last_health_check := now }
      match body with
      | .malformed => { s1 with healthy := false }
      | .parsed cpu mem =>
          { s1 with cpu_percent := cpu.getD 0, memory_percent := mem.getD 0 }
    else { s with healthy := false }

/-- Does a probe outcome count as a failure for the purposes of the spec's
error-handling contract (timeout/connect error, non-2xx status, or 2xx
with an unparseable body)?  Mirrors the spec's taxonomy, *not* a code
path: used to state claims about `check_server_health`. -/
def probeFailed (r : ProbeResult) : Bool :=
  match r with
  | .failure => true
  | .response status _ _ body =>
      ¬ (200 ≤ status ∧ status ≤ 299) ∨ body = ProbeBody.malformed

/-! ## Flow programming (`ryu_lb_basic.py`) -/

/-- OpenFlow actions used by the controller. -/
inductive OFAction : Type
  | setIpv4Dst (ip : String)
  | setIpv4Src (ip : String)
  | output (port : Nat)
  | outputController
deriving Repr, DecidableEq

/-- Match fields used by the controller's `OFPMatch` calls (absent field =
wildcard, as in an `OFPMatch()` with the keyword omitted). -/
structure OFMatch where
  in_port : Option Nat := none
  eth_type : Option Nat := none
  ipv4_src : Option String := none
  ipv4_dst : Option String := none
deriving Repr, DecidableEq

/-- An `OFPFlowMod` message as built by `add_flow` (priority + match +
apply-actions instruction). -/
structure FlowModMsg where
  priority : Nat
  ofmatch : OFMatch
  actions : List OFAction
deriving Repr, DecidableEq

/-- Ethernet type for IPv4 (`ether_types.ETH_TYPE_IP`). -/
def ETH_TYPE_IP : Nat := 0x0800

/-- The default table-miss rule installed by `switch_features_handler`:
match-all at priority 0, send to controller. -/
def default_flow : FlowModMsg :=
  { priority := 0, ofmatch := {}, actions := [OFAction.outputController] }

/-- Embedding of `_install_load_balance_flow`: the two `FlowMod` messages
sent for a selected backend, in emission order (forward rule first, then
the return rule). -/
def install_load_balance_flow (virtual_ip : String) (in_port : Nat)
    (client_ip : String) (server : ServerMetrics) : List FlowModMsg :=
  [ { priority := 10,
      ofmatch := { in_port := some in_port, eth_type := some ETH_TYPE_IP, ipv4_src := some client_ip, ipv4_dst := some virtual_ip },
      actions := [OFAction.setIpv4Dst server.ip, OFAction.output 2] },
    { priority := 10,
      ofmatch := { in_port := some 2, eth_type := some ETH_TYPE_IP, ipv4_src := some server.ip, ipv4_dst := some client_ip },
      actions := [OFAction.setIpv4Src virtual_ip, OFAction.output in_port] } ]

/-! ## Configuration parsing (`_parse_servers` and `__init__`) -/

/-- Embedding of one iteration of the `_parse_servers` loop body:
`ip, port = server_str.strip().split(':')` succeeds only when the split
yields exactly two parts, then `int(port)` must parse (both failure modes
raise `ValueError`, which the loop catches and skips).  `String.toInt?`
embeds `int(...)` on the strings this system feeds it. -/
def parseServerEntry (server_str : String) : Option (String × Int) :=
  match server_str.trim.splitOn ":" with
  | [ip, portStr] => (portStr.toInt?).map (fun p => (ip, p))
  | _ => none

/-- The development-default backend list returned when `BACKEND_SERVERS`
is unset or empty. -/
def defaultServers : List (String × Int) :=
  [("127.0.0.1", 5001), ("127.0.0.1", 5002)]

/-- Embedding of `_parse_servers`: empty env means the default list;
otherwise split on commas and keep each entry the loop body parses,
skipping (with a logged error) each one that raises. -/
def parse_servers (servers_env : String) : List (String × Int) :=
  if servers_env = "" then defaultServers
  else
    (servers_env.splitOn ",").foldl
      (fun acc server_str =>
        match parseServerEntry server_str with
        | some p => acc ++ [p]
        | none => acc)
      []

/-- Embedding of the constructor logic of `SDNLoadBalancer.__init__` that
decides whether a `LoadBalancer` is built: `self.load_balancer` stays
`None` (here `none`) exactly when the parsed list is empty; the caller
decides what that means. -/
def sdn_init_load_balancer (servers_env : String) : Option LoadBalancer :=
  let servers := parse_servers servers_env
  if servers.isEmpty then none else some (LoadBalancer.init servers)

/-! ## Iterated round-robin selection (for the cycling claim) -/

/-- Run `_round_robin_select` `n` times against a fixed healthy list,
collecting the selections and threading the cursor. -/
def rrRun (servers : List ServerMetrics) (index : Nat) :
    Nat → List (Option ServerMetrics) × Nat
  | 0 => ([], index)
  | n + 1 =>
    let r := round_robin_select servers index
    let rest := rrRun servers r.2 n
    (r.1 :: rest.1, rest.2)

/-! ## Auxiliary definitions used only to state claims -/

/-- A descriptor with its transient `weight` scratch field zeroed out: two
descriptors agree up to `stripWeight` precisely when they denote the same
backend with the same persistent metrics (the weighted policies recompute
and overwrite `weight` on the object they return, so "returns that
server" is equality modulo this field). -/
def stripWeight (s : ServerMetrics) : ServerMetrics :=
  { s with weight := 0 }

/-- Combined resource usage `cpu/100 + mem/100` that the spec says the
weighted-round-robin policy minimizes. -/
def resourceUsage (s : ServerMetrics) : ℚ :=
  s.cpu_percent / 100 + s.memory_percent / 100

/-! ## Concrete inputs for counterexamples and witnesses -/

/-- First server of the weighted-round-robin counterexample: cpu 99 %,
mem 0 %, so its cpu term clamps to `0.1` and its weight is `0.55`. -/
def wrrCexFirst : ServerMetrics := { freshMetrics "b" 2 with cpu_percent := 99 }

/-- Second server of the weighted-round-robin counterexample: cpu 91 %,
mem 0 %, so its cpu term also clamps to `0.1` and its weight is likewise
`0.55` — yet its combined usage is strictly lower. -/
def wrrCexSecond : ServerMetrics := { freshMetrics "a" 1 with cpu_percent := 91 }

/-- First server of the latency-weighted counterexample: never probed, so
`last_latency_ms = 0` and the code assigns it weight `1.0`. -/
def latCexFirst : ServerMetrics := freshMetrics "a" 1

/-- Second server of the latency-weighted counterexample: latency 50 ms,
the strictly minimal positive latency of the pool, weight `1/50`. -/
def latCexSecond : ServerMetrics := { freshMetrics "b" 2 with last_latency_ms := 50 }

/-- Server used by the health-probe counterexample: it carries previously
recorded metrics (latency 50 ms, cpu 10 %, mem 20 %). -/
def probeCexServer : ServerMetrics :=
  { freshMetrics "a" 1 with last_latency_ms := 50, cpu_percent := 10, memory_percent := 20 }

/-- The probe outcome of the health-probe counterexample: HTTP 200, a
123 ms round trip measured at time 7, and a body `response.json()`
cannot parse. -/
def probeCexResult : ProbeResult :=
  ProbeResult.response 200 123 7 ProbeBody.malformed

/-- An unhealthy descriptor used by concrete witnesses. -/
def downMetrics : ServerMetrics := { freshMetrics "a" 1 with healthy := false }

/-- Witness state with a single, unhealthy server. -/
def lbAllDown : LoadBalancer :=
  { servers := [("a:1", downMetrics)], request_counts := [("a:1", 0)] }

/-- Witness state with two servers of which only the second is healthy. -/
def lbOneHealthy : LoadBalancer :=
  { servers := [("a:1", downMetrics), ("b:2", freshMetrics "b" 2)],
    request_counts := [("a:1", 0), ("b:2", 0)] }

/-- Witness configuration containing a duplicate pair. -/
def witnessPool : List (String × Int) := [("a", 1), ("a", 1), ("b", 2)]

/-- Witness registry with two servers, used for the record-request and
round-robin witnesses. -/
def lbTwo : LoadBalancer := LoadBalancer.init [("a", 1), ("b", 2)]

/-! ## Lemmas about Python `min`/`max` with a key function -/

theorem pickMin_mem {α β : Type} [LinearOrder β] (f : α → β) :
    ∀ (xs : List α) (x : α), pickMin f x xs ∈ x :: xs
  | [], x => List.mem_singleton.mpr rfl
  | y :: xs, x => by
    have h := pickMin_mem f xs (if f y < f x then y else x)
    have hstep : pickMin f x (y :: xs) = pickMin f (if f y < f x then y else x) xs := rfl
    rw [hstep]
    rcases List.mem_cons.mp h with h' | h'
    · rw [h']
      split
      · exact List.mem_cons_of_mem _ (List.mem_cons_self _ _)
      · exact List.mem_cons_self _ _
    · exact List.mem_cons_of_mem _ (List.mem_cons_of_mem _ h')

theorem pickMax_decomp {α β : Type} [LinearOrder β] (f : α → β) :
    ∀ (xs : List α) (x : α),
      ∃ l1 l2, x :: xs = l1 ++ pickMax f x xs :: l2 ∧
        (∀ y ∈ l1, f y < f (pickMax f x xs)) ∧
        (∀ y ∈ x :: xs, f y ≤ f (pickMax f x xs))
  | [], x => ⟨[], [], rfl, by simp, by simp [pickMax]⟩
  | y :: xs, x => by
    have hstep : pickMax f x (y :: xs) = pickMax f (if f x < f y then y else x) xs := rfl
    by_cases h : f x < f y
    · rw [hstep, if_pos h]
      obtain ⟨l1, l2, hd, hlt, hle⟩ := pickMax_decomp f xs y
      refine ⟨x :: l1, l2, ?_, ?_, ?_⟩
      · simpa using congrArg (List.cons x) hd
      · intro z hz
        rcases List.mem_cons.mp hz with rfl | hz'
        · exact lt_of_lt_of_le h (hle y (List.mem_cons_self _ _))
        · exact hlt z hz'
      · intro z hz
        rcases List.mem_cons.mp hz with rfl | hz'
        · exact le_of_lt (lt_of_lt_of_le h (hle y (List.mem_cons_self _ _)))
        · exact hle z hz'
    · rw [hstep, if_neg h]
      obtain ⟨l1, l2, hd, hlt, hle⟩ := pickMax_decomp f xs x
      have hyx : f y ≤ f x := le_of_not_lt h
      rcases l1 with _ | ⟨a, l1'⟩
      · obtain ⟨hx, hxs⟩ := List.cons.inj hd
        refine ⟨[], y :: l2, ?_, by simp, ?_⟩
        · rw [← hx, ← hxs]
          rfl
        · intro z hz
          rcases List.mem_cons.mp hz with rfl | hz'
          · exact hle z (List.mem_cons_self _ _)
          · rcases List.mem_cons.mp hz' with rfl | hz''
            · exact le_trans hyx (hle x (List.mem_cons_self _ _))
            · exact hle z (List.mem_cons_of_mem _ hz'')
      · obtain ⟨hx, hxs⟩ := List.cons.inj hd
        refine ⟨x :: y :: l1', l2, ?_, ?_, ?_⟩
        · exact congrArg (fun t => x :: y :: t) hxs
        · intro z hz
          have hxm : f x < f (pickMax f x xs) := by
            have := hlt a (List.mem_cons_self _ _)
            rwa [← hx] at this
          rcases List.mem_cons.mp hz with rfl | hz'
          · exact hxm
          · rcases List.mem_cons.mp hz' with rfl | hz''
            · exact lt_of_le_of_lt hyx hxm
            · exact hlt z (List.mem_cons_of_mem _ hz'')
        · intro z hz
          rcases List.mem_cons.mp hz with rfl | hz'
          · exact hle z (List.mem_cons_self _ _)
          · rcases List.mem_cons.mp hz' with rfl | hz''
            · exact le_trans hyx (hle x (List.mem_cons_self _ _))
            · exact hle z (List.mem_cons_of_mem _ hz'')

theorem pyMaxBy_decomp {α β : Type} [LinearOrder β] (f : α → β) (l : List α)
    (h : l ≠ []) :
    ∃ r l1 l2, pyMaxBy f l = some r ∧ l = l1 ++ r :: l2 ∧
      (∀ y ∈ l1, f y < f r) ∧ (∀ y ∈ l, f y ≤ f r) := by
  cases l with
  | nil => exact absurd rfl h
  | cons x xs =>
    obtain ⟨l1, l2, hd, hlt, hle⟩ := pickMax_decomp f xs x
    exact ⟨pickMax f x xs, l1, l2, rfl, hd, hlt, hle⟩

theorem pickMax_map {α γ β : Type} [LinearOrder β] (f : γ → β) (u : α → γ) :
    ∀ (xs : List α) (x : α),
      pickMax f (u x) (xs.map u) = u (pickMax (fun a => f (u a)) x xs)
  | [], x => rfl
  | y :: xs, x => by
    have hpush : (if f (u x) < f (u y) then u y else u x) =
        u (if f (u x) < f (u y) then y else x) := by
      split <;> rfl
    show pickMax f (if f (u x) < f (u y) then u y else u x) (xs.map u) = _
    rw [hpush]
    exact pickMax_map f u xs (if f (u x) < f (u y) then y else x)

theorem pyMaxBy_map {α γ β : Type} [LinearOrder β] (f : γ → β) (u : α → γ)
    (l : List α) :
    pyMaxBy f (l.map u) = (pyMaxBy (fun a => f (u a)) l).map u := by
  cases l with
  | nil => rfl
  | cons x xs => simp [pyMaxBy, pickMax_map]

/-! ## Characterizations of the selection functions -/

theorem latWeight_pos (s : ServerMetrics) : 0 < latWeight s := by
  unfold latWeight
  split
  · exact one_div_pos.mpr (by assumption)
  · exact one_pos

theorem latency_select_eq (hs : List ServerMetrics) (h : hs ≠ []) :
    latency_weighted_select hs = (pyMaxBy latWeight hs).map setLatWeight := by
  unfold latency_weighted_select
  rw [if_neg (by simpa [List.isEmpty_iff] using h)]
  have hsum : ((hs.map setLatWeight).map (fun s => s.weight)).sum ≠ 0 := by
    refine ne_of_gt (List.sum_pos _ ?_ ?_)
    · intro w hw
      rw [List.map_map] at hw
      obtain ⟨s, _, rfl⟩ := List.mem_map.mp hw
      exact latWeight_pos s
    · simpa using h
  simp only [hsum, if_neg, ite_false]
  rw [pyMaxBy_map (fun s => s.weight) setLatWeight hs]
  rfl

theorem wrr_select_eq (hs : List ServerMetrics) :
    weighted_round_robin_select hs = (pyMaxBy wrrWeight hs).map setWrrWeight := by
  unfold weighted_round_robin_select
  rw [pyMaxBy_map (fun s => s.weight) setWrrWeight hs]
  rfl

theorem wrrWeight_of_no_clamp (s : ServerMetrics) (hc : s.cpu_percent ≤ 90)
    (hm : s.memory_percent ≤ 90) :
    wrrWeight s = 1 - (s.cpu_percent / 100 + s.memory_percent / 100) / 2 := by
  unfold wrrWeight
  rw [max_eq_right (by linarith), max_eq_right (by linarith)]
  ring

/-! ## Lemmas about the dict model -/

theorem dlookup_map_upd {V : Type} (l : List (String × V)) (k : String)
    (f : V → V) :
    dlookup k (l.map (fun p => if p.1 = k then (p.1, f p.2) else p)) =
      (dlookup k l).map f := by
  induction l with
  | nil => rfl
  | cons p rest ih =>
    by_cases h : p.1 = k
    · simp [dlookup, h]
    · simp [dlookup, h, ih]

theorem dlookup_map_ne {V : Type} (l : List (String × V)) (k k' : String)
    (hne : k' ≠ k) (f : V → V) :
    dlookup k' (l.map (fun p => if p.1 = k then (p.1, f p.2) else p)) =
      dlookup k' l := by
  induction l with
  | nil => rfl
  | cons p rest ih =>
    by_cases h : p.1 = k
    · simp [dlookup, h, Ne.symm hne, ih]
    · by_cases h' : p.1 = k'
      · simp [dlookup, h, h', hne, ih]
      · simp [dlookup, h, h', ih]

theorem dlookup_dictSet_self {V : Type} (l : List (String × V)) (k : String)
    (v : V) : dlookup k (dictSet l k v) = some v := by
  unfold dictSet
  by_cases h : l.any (fun p => p.1 = k)
  · rw [if_pos h]
    induction l with
    | nil => simp at h
    | cons p rest ih =>
      by_cases hp : p.1 = k
      · simp [dlookup, hp]
      · have hrest : rest.any (fun p => p.1 = k) := by
          rcases List.any_eq_true.mp h with ⟨q, hq, hq1⟩
          rcases List.mem_cons.mp hq with rfl | hq'
          · exact absurd (of_decide_eq_true hq1) hp
          · exact List.any_eq_true.mpr ⟨q, hq', hq1⟩
        simp [dlookup, hp, ih hrest]
  · rw [if_neg h]
    induction l with
    | nil => simp [dlookup]
    | cons p rest ih =>
      have hp : ¬ p.1 = k := by
        intro hc
        exact h (List.any_eq_true.mpr ⟨p, List.mem_cons_self _ _, decide_eq_true hc⟩)
      have hrest : ¬ rest.any (fun p => p.1 = k) := by
        intro hc
        rcases List.any_eq_true.mp hc with ⟨q, hq, hq1⟩
        exact h (List.any_eq_true.mpr ⟨q, List.mem_cons_of_mem _ hq, hq1⟩)
      simp [dlookup, hp, ih hrest]

theorem dlookup_map_repl_ne {V : Type} (l : List (String × V)) (k k' : String)
    (v : V) (hne : k' ≠ k) :
    dlookup k' (l.map (fun p => if p.1 = k then (k, v) else p)) =
      dlookup k' l := by
  induction l with
  | nil => rfl
  | cons p rest ih =>
    by_cases h : p.1 = k
    · simp [dlookup, h, Ne.symm hne, ih]
    · by_cases h' : p.1 = k'
      · simp [dlookup, h, h', hne, ih]
      · simp [dlookup, h, h', ih]

theorem dlookup_append_single_ne {V : Type} (l : List (String × V))
    (k k' : String) (v : V) (hne : k' ≠ k) :
    dlookup k' (l ++ [(k, v)]) = dlookup k' l := by
  induction l with
  | nil => simp [dlookup, Ne.symm hne]
  | cons p rest ih =>
    by_cases h' : p.1 = k'
    · simp [dlookup, h']
    · simp [dlookup, h', ih]

theorem dlookup_dictSet_ne {V : Type} (l : List (String × V)) (k k' : String)
    (v : V) (hne : k' ≠ k) : dlookup k' (dictSet l k v) = dlookup k' l := by
  unfold dictSet
  split
  · exact dlookup_map_repl_ne l k k' v hne
  · exact dlookup_append_single_ne l k k' v hne

/-! ## Lemmas about iterated round-robin selection -/

theorem round_robin_select_eq (servers : List ServerMetrics)
    (h : servers ≠ []) (i : Nat) :
    round_robin_select servers i =
      (servers.get? (i % servers.length), i + 1) := by
  unfold round_robin_select
  rw [if_neg (by simpa [List.isEmpty_iff] using h)]

theorem rrRun_char (servers : List ServerMetrics) (h : servers ≠ []) :
    ∀ (n i0 : Nat),
      rrRun servers i0 n =
        ((List.range n).map
          (fun k => servers.get? ((i0 + k) % servers.length)), i0 + n)
  | 0, i0 => by simp [rrRun]
  | n + 1, i0 => by
    have hsel := round_robin_select_eq servers h i0
    have ih := rrRun_char servers h n (i0 + 1)
    simp only [rrRun, hsel, ih]
    refine Prod.ext ?_ (by omega)
    rw [List.range_succ_eq_map, List.map_cons, List.map_map]
    refine congrArg₂ List.cons (by simp) (List.map_congr_left ?_)
    intro k _
    simp [Function.comp, Nat.add_comm, Nat.add_assoc, Nat.add_left_comm]

theorem count_mod_hits (N i0 j : Nat) (hN : 0 < N) (hj : j < N) :
    ((Finset.range (2 * N)).filter (fun k => (i0 + k) % N = j)).card = 2 := by
  have hmN : i0 % N < N := Nat.mod_lt _ hN
  set m := i0 % N with hm
  set k0 := (if m ≤ j then j - m else N + j - m) with hk0
  have hk0N : k0 < N := by rw [hk0]; split <;> omega
  have hreduce : ∀ k, (i0 + k) % N = (m + k) % N := by
    intro k
    have h1 := Nat.div_add_mod i0 N
    rw [← hm] at h1
    have hsplit : i0 + k = N * (i0 / N) + (m + k) := by omega
    rw [hsplit, Nat.mul_add_mod]
  have hsol : (m + k0) % N = j := by
    rw [hk0]
    split
    · rw [show m + (j - m) = j from by omega, Nat.mod_eq_of_lt hj]
    · rw [show m + (N + j - m) = N + j from by omega, Nat.add_mod_left,
        Nat.mod_eq_of_lt hj]
  have hfe : (Finset.range (2 * N)).filter (fun k => (i0 + k) % N = j) =
      {k0, k0 + N} := by
    ext k
    simp only [Finset.mem_filter, Finset.mem_range, Finset.mem_insert,
      Finset.mem_singleton, hreduce]
    constructor
    · rintro ⟨hk2N, hkj⟩
      have hme0 : (m + k) % N = (m + k0) % N := by rw [hkj, hsol]
      have hme : k ≡ k0 [MOD N] := Nat.ModEq.add_left_cancel' m hme0
      have hkmod : k % N = k0 := by
        have h2 : k % N = k0 % N := hme
        rw [h2, Nat.mod_eq_of_lt hk0N]
      by_cases hlt : k < N
      · rw [Nat.mod_eq_of_lt hlt] at hkmod
        exact Or.inl hkmod
      · refine Or.inr ?_
        have hge : N ≤ k := le_of_not_lt hlt
        have h3 : k % N = (k - N) % N := Nat.mod_eq_sub_mod hge
        have h4 : (k - N) % N = k - N := Nat.mod_eq_of_lt (by omega)
        have h5 : k - N = k0 := by rw [← h4, ← h3, hkmod]
        omega
    · rintro (rfl | rfl)
      · exact ⟨by omega, hsol⟩
      · exact ⟨by omega, by rw [← Nat.add_assoc, Nat.add_mod_right, hsol]⟩
  rw [hfe, Finset.card_insert_of_not_mem (by simp [hN]; omega),
    Finset.card_singleton]

/-! ## Lemmas about registry construction -/

theorem mem_dictSet {V : Type} (l : List (String × V)) (k : String) (v : V)
    (q : String × V) (hq : q ∈ dictSet l k v) : q ∈ l ∨ q = (k, v) := by
  unfold dictSet at hq
  split at hq
  · obtain ⟨p, hp, hpq⟩ := List.mem_map.mp hq
    by_cases h : p.1 = k
    · rw [if_pos h] at hpq
      exact Or.inr hpq.symm
    · rw [if_neg h] at hpq
      exact Or.inl (hpq ▸ hp)
  · rcases List.mem_append.mp hq with h | h
    · exact Or.inl h
    · exact Or.inr (List.mem_singleton.mp h)

theorem keys_dictSet_mem {V : Type} (l : List (String × V)) (k : String)
    (v : V) (a : String) :
    a ∈ (dictSet l k v).map Prod.fst ↔ a ∈ l.map Prod.fst ∨ a = k := by
  unfold dictSet
  split
  · rename_i hany
    rw [List.map_map]
    constructor
    · intro ha
      obtain ⟨p, hp, hpa⟩ := List.mem_map.mp ha
      by_cases h : p.1 = k
      · simp only [Function.comp, if_pos h] at hpa
        exact Or.inr hpa.symm
      · simp only [Function.comp, if_neg h] at hpa
        exact Or.inl (List.mem_map.mpr ⟨p, hp, hpa⟩)
    · intro ha
      rcases ha with ha | ha
      · obtain ⟨p, hp, hpa⟩ := List.mem_map.mp ha
        refine List.mem_map.mpr ⟨p, hp, ?_⟩
        by_cases h : p.1 = k
        · simp only [Function.comp, if_pos h]
          rw [← hpa, h]
        · simp only [Function.comp, if_neg h]
          exact hpa
      · subst ha
        obtain ⟨p, hp, hp1⟩ := List.any_eq_true.mp hany
        refine List.mem_map.mpr ⟨p, hp, ?_⟩
        have h : p.1 = a := of_decide_eq_true hp1
        simp only [Function.comp, if_pos h]
  · simp [List.map_append]

theorem keys_dictSet_nodup {V : Type} (l : List (String × V)) (k : String)
    (v : V) (h : (l.map Prod.fst).Nodup) :
    ((dictSet l k v).map Prod.fst).Nodup := by
  unfold dictSet
  split
  · rename_i hany
    rw [List.map_map]
    have : l.map (Prod.fst ∘ fun p => if p.1 = k then (k, v) else p) =
        l.map Prod.fst := by
      refine List.map_congr_left ?_
      intro p _
      by_cases hp : p.1 = k
      · simp [Function.comp, hp]
      · simp [Function.comp, hp]
    rw [this]
    exact h
  · rename_i hany
    rw [List.map_append]
    refine List.Nodup.append h (List.nodup_singleton k) ?_
    intro a ha hb
    simp only [List.map_cons, List.map_nil, List.mem_singleton] at hb
    subst hb
    obtain ⟨p, hp, hpa⟩ := List.mem_map.mp ha
    exact hany (List.any_eq_true.mpr ⟨p, hp, decide_eq_true hpa⟩)

theorem fold_dictSet_mem_keys {V : Type} (key : String × Int → String)
    (val : String × Int → V) :
    ∀ (l : List (String × Int)) (d : List (String × V)) (a : String),
      (a ∈ (l.foldl (fun d p => dictSet d (key p) (val p)) d).map Prod.fst) ↔
        a ∈ d.map Prod.fst ∨ a ∈ l.map key
  | [], d, a => by simp
  | p :: l, d, a => by
    rw [List.foldl_cons, fold_dictSet_mem_keys key val l _ a,
      keys_dictSet_mem]
    simp only [List.map_cons, List.mem_cons]
    tauto

theorem fold_dictSet_nodup {V : Type} (key : String × Int → String)
    (val : String × Int → V) :
    ∀ (l : List (String × Int)) (d : List (String × V)),
      (d.map Prod.fst).Nodup →
      ((l.foldl (fun d p => dictSet d (key p) (val p)) d).map Prod.fst).Nodup
  | [], d, h => h
  | p :: l, d, h => by
    rw [List.foldl_cons]
    exact fold_dictSet_nodup key val l _ (keys_dictSet_nodup _ _ _ h)

theorem fold_dictSet_values {V : Type} (key : String × Int → String)
    (val : String × Int → V) (Q : String × V → Prop)
    (hQ : ∀ p : String × Int, Q (key p, val p)) :
    ∀ (l : List (String × Int)) (d : List (String × V)),
      (∀ q ∈ d, Q q) →
      ∀ q ∈ l.foldl (fun d p => dictSet d (key p) (val p)) d, Q q
  | [], _, hd => hd
  | p :: l, d, hd => by
    rw [List.foldl_cons]
    refine fold_dictSet_values key val Q hQ l _ ?_
    intro q hq
    rcases mem_dictSet _ _ _ q hq with h | rfl
    · exact hd q h
    · exact hQ p

theorem fold_dictSet_length {V : Type} (key : String × Int → String)
    (val : String × Int → V) :
    ∀ (l : List (String × Int)) (d : List (String × V)),
      (d.map Prod.fst).Nodup →
      (l.foldl (fun d p => dictSet d (key p) (val p)) d).length =
        (d.map Prod.fst ++ l.map key).toFinset.card
  | [], d, h => by
    simp [List.toFinset_card_of_nodup h]
  | p :: l, d, h => by
    rw [List.foldl_cons,
      fold_dictSet_length key val l _ (keys_dictSet_nodup _ _ _ h)]
    congr 1
    ext a
    simp only [List.toFinset_append, Finset.mem_union, List.mem_toFinset,
      keys_dictSet_mem, List.map_cons, List.mem_cons]
    tauto

theorem dlookup_of_all_zero (l : List (String × Int)) (k : String)
    (h : ∀ q ∈ l, q.2 = (0 : Int)) (hk : k ∈ l.map Prod.fst) :
    dlookup k l = some 0 := by
  induction l with
  | nil => simp at hk
  | cons p rest ih =>
    by_cases hp : p.1 = k
    · have : p.2 = 0 := h p (List.mem_cons_self _ _)
      simp [dlookup, hp, this]
    · have hk' : k ∈ rest.map Prod.fst := by
        rcases List.mem_map.mp hk with ⟨q, hq, hqa⟩
        rcases List.mem_cons.mp hq with rfl | hq'
        · exact absurd hqa hp
        · exact List.mem_map.mpr ⟨q, hq', hqa⟩
      simp [dlookup, hp, ih (fun q hq => h q (List.mem_cons_of_mem _ hq)) hk']

/-! ## Lemma about the configuration-parsing loop -/

theorem foldl_append_filterMap (g : String → Option (String × Int)) :
    ∀ (l : List String) (acc : List (String × Int)),
      l.foldl (fun acc s =>
        match g s with
        | some p => acc ++ [p]
        | none => acc) acc = acc ++ l.filterMap g
  | [], acc => by simp
  | s :: l, acc => by
    rw [List.foldl_cons]
    cases hg : g s with
    | none => simp [hg, foldl_append_filterMap g l acc]
    | some p => simp [hg, foldl_append_filterMap g l (acc ++ [p])]

/-! ## Lemmas about `select_server` -/

theorem healthy_servers_nil (lb : LoadBalancer)
    (h : ∀ p ∈ lb.servers, p.2.healthy = false) : healthy_servers lb = [] := by
  unfold healthy_servers
  rw [List.filter_eq_nil_iff]
  intro s hsm
  obtain ⟨p, hp, rfl⟩ := List.mem_map.mp hsm
  simp [h p hp]

theorem healthy_servers_healthy (lb : LoadBalancer) (s : ServerMetrics)
    (h : s ∈ healthy_servers lb) : s.healthy = true := by
  unfold healthy_servers at h
  exact (List.mem_filter.mp h).2

theorem pyMinBy_mem {α β : Type} [LinearOrder β] (f : α → β) (l : List α)
    (r : α) (h : pyMinBy f l = some r) : r ∈ l := by
  cases l with
  | nil => simp [pyMinBy] at h
  | cons x xs =>
    simp only [pyMinBy, Option.some.injEq] at h
    rw [← h]
    exact pickMin_mem f xs x

theorem latency_select_mem (hs : List ServerMetrics) (r : ServerMetrics)
    (h : latency_weighted_select hs = some r) :
    ∃ s ∈ hs, r = setLatWeight s := by
  cases hs with
  | nil => simp [latency_weighted_select] at h
  | cons x xs =>
    obtain ⟨r0, l1, l2, hmax, hdec, _, _⟩ :=
      pyMaxBy_decomp latWeight (x :: xs) (by simp)
    rw [latency_select_eq _ (by simp), hmax] at h
    have h2 : setLatWeight r0 = r := by simpa using h
    exact ⟨r0, by rw [hdec]; exact List.mem_append_right _ (List.mem_cons_self _ _), h2.symm⟩

theorem wrr_select_mem (hs : List ServerMetrics) (r : ServerMetrics)
    (h : weighted_round_robin_select hs = some r) :
    ∃ s ∈ hs, r = setWrrWeight s := by
  cases hs with
  | nil => simp [weighted_round_robin_select, pyMaxBy] at h
  | cons x xs =>
    obtain ⟨r0, l1, l2, hmax, hdec, _, _⟩ :=
      pyMaxBy_decomp wrrWeight (x :: xs) (by simp)
    rw [wrr_select_eq, hmax] at h
    have h2 : setWrrWeight r0 = r := by simpa using h
    exact ⟨r0, by rw [hdec]; exact List.mem_append_right _ (List.mem_cons_self _ _), h2.symm⟩

theorem latency_select_single (x : ServerMetrics) :
    latency_weighted_select [x] = some (setLatWeight x) := by
  rw [latency_select_eq [x] (by simp)]
  rfl

theorem setLatWeight_healthy (s : ServerMetrics) :
    (setLatWeight s).healthy = s.healthy := rfl

theorem setWrrWeight_healthy (s : ServerMetrics) :
    (setWrrWeight s).healthy = s.healthy := rfl

theorem stripWeight_setLatWeight (s : ServerMetrics) :
    stripWeight (setLatWeight s) = stripWeight s := rfl

theorem stripWeight_setWrrWeight (s : ServerMetrics) :
    stripWeight (setWrrWeight s) = stripWeight s := rfl

/-! ## Claim theorems -/

/-- C3 (counterexample): the claim says a failed probe never overwrites the
previously recorded `last_latency_ms`, but on an HTTP 200 response whose
body fails to parse (a "2xx response whose body cannot be parsed", hence a
probe failure) `_check_server_health` has already overwritten
`last_latency_ms` (50 → 123) before `response.json()` raises. -/
theorem C3_counterexample :
    probeFailed probeCexResult = true ∧
    probeCexServer.last_latency_ms = 50 ∧
    (check_server_health probeCexServer probeCexResult).healthy = false ∧
    (check_server_health probeCexServer probeCexResult).last_latency_ms = 123 ∧
    (123 : ℚ) ≠ 50 := by
  refine ⟨rfl, rfl, rfl, rfl, by decide⟩

/-- C3 (amended): on a probe failure the server is marked unhealthy, and on
the timeout/connection-error path and the non-200-status path every other
field (in particular `last_latency_ms`, `cpu_percent`, `memory_percent`)
is left unchanged; but on a 200 response with an unparseable body, while
`cpu_percent`/`memory_percent` keep their stale values, `last_latency_ms`
and `last_health_check` are overwritten with the failed probe's
measurements before the parse error is caught. -/
theorem C3_amended_probe_failure (s : ServerMetrics) :
    (check_server_health s ProbeResult.failure = { s with healthy := false }) ∧
    (∀ (status : Nat) (latency_ms now : ℚ) (body : ProbeBody), status ≠ 200 →
      check_server_health s (ProbeResult.response status latency_ms now body) =
        { s with healthy := false }) ∧
    (∀ latency_ms now : ℚ,
      check_server_health s
          (ProbeResult.response 200 latency_ms now ProbeBody.malformed) =
        { s with healthy := false, last_latency_ms := latency_ms,
                 last_health_check := now }) := by
  refine ⟨rfl, ?_, ?_⟩
  · intro status latency_ms now body hs
    simp only [check_server_health]
    rw [if_neg hs]
  · intro latency_ms now
    rfl

/-- C3 (witness): applying the amended theorem to the concrete server with
recorded metrics and a 500-status probe. -/
theorem C3_witness :
    check_server_health probeCexServer
        (ProbeResult.response 500 9 9 (ProbeBody.parsed none none)) =
      { probeCexServer with healthy := false } :=
  (C3_amended_probe_failure probeCexServer).2.1 500 9 9
    (ProbeBody.parsed none none) (by decide)

/-- C5: for every registry state and hence for every policy, when no server
is healthy `select_server` returns the explicit `None` result (the
function is total, so no exception is modelled or possible). -/
theorem C5_no_healthy_none (lb : LoadBalancer)
    (h : ∀ p ∈ lb.servers, p.2.healthy = false) :
    (select_server lb).1 = none := by
  have hnil : healthy_servers lb = [] := healthy_servers_nil lb h
  simp [select_server, hnil]

/-- C5 (witness): the single-server, all-unhealthy registry. -/
theorem C5_witness : (select_server lbAllDown).1 = none :=
  C5_no_healthy_none lbAllDown (by decide)

/-- C6: a selected backend yields exactly two flow rules, both at priority
10, strictly above the priority-0 default controller-miss rule installed
at switch connect; the forward rule matches (ingress port, client source,
virtual destination) and rewrites the destination to the backend, the
reverse rule matches (port 2, backend source, client destination) and
rewrites the source back to the virtual address. -/
theorem C6_flow_rules (virtual_ip : String) (in_port : Nat)
    (client_ip : String) (server : ServerMetrics) :
    (install_load_balance_flow virtual_ip in_port client_ip server).length = 2 ∧
    (install_load_balance_flow virtual_ip in_port client_ip server).map
      (fun f => f.priority) = [10, 10] ∧
    default_flow.priority = 0 ∧
    (install_load_balance_flow virtual_ip in_port client_ip server).all
      (fun f => default_flow.priority < f.priority) = true ∧
    (install_load_balance_flow virtual_ip in_port client_ip server).map
      (fun f => f.ofmatch) =
      [ { in_port := some in_port, eth_type := some ETH_TYPE_IP,
          ipv4_src := some client_ip, ipv4_dst := some virtual_ip },
        { in_port := some 2, eth_type := some ETH_TYPE_IP,
          ipv4_src := some server.ip, ipv4_dst := some client_ip } ] ∧
    (install_load_balance_flow virtual_ip in_port client_ip server).map
      (fun f => f.actions) =
      [ [OFAction.setIpv4Dst server.ip, OFAction.output 2],
        [OFAction.setIpv4Src virtual_ip, OFAction.output in_port] ] :=
  ⟨rfl, rfl, rfl, rfl, rfl, rfl⟩

/-- C9: parsing the backend list keeps exactly the well-formed `host:port`
entries, in order (one pair per entry the loop body parses, each
malformed entry skipped), and the constructor leaves the load balancer
unbuilt (`none`) precisely when the resulting list is empty. -/
theorem C9_parse_servers (servers_env : String) :
    parse_servers servers_env =
      (if servers_env = "" then defaultServers
       else (servers_env.splitOn ",").filterMap parseServerEntry) ∧
    (sdn_init_load_balancer servers_env).isNone =
      (parse_servers servers_env).isEmpty := by
  constructor
  · unfold parse_servers
    split
    · rfl
    · simpa using
        foldl_append_filterMap parseServerEntry (servers_env.splitOn ",") []
  · unfold sdn_init_load_balancer
    by_cases he : (parse_servers servers_env).isEmpty
    · simp [he]
    · simp [he]

/-- C1 (counterexample): with the pool `[cpu 99 %, cpu 91 %]` (mem 0 % both)
the clamp `max(0.1, ...)` makes both weights `0.55`, so the tie-break
returns the first server `"b"` even though the second server `"a"` has
the strictly smaller combined usage `cpu/100 + mem/100`; the selection
therefore does not return the usage minimizer. -/
theorem C1_counterexample :
    (weighted_round_robin_select [wrrCexFirst, wrrCexSecond]).map
      (fun s => s.ip) = some "b" ∧
    wrrCexFirst.ip = "b" ∧ wrrCexSecond.ip = "a" ∧
    resourceUsage wrrCexSecond < resourceUsage wrrCexFirst := by
  have hw1 : wrrWeight wrrCexFirst = 11 / 20 := by
    show (max (1/10 : ℚ) (1 - 99/100) + max (1/10 : ℚ) (1 - 0/100)) / 2 = 11/20
    rw [max_eq_left (by norm_num), max_eq_right (by norm_num)]
    norm_num
  have hw2 : wrrWeight wrrCexSecond = 11 / 20 := by
    show (max (1/10 : ℚ) (1 - 91/100) + max (1/10 : ℚ) (1 - 0/100)) / 2 = 11/20
    rw [max_eq_left (by norm_num), max_eq_right (by norm_num)]
    norm_num
  have hsel : weighted_round_robin_select [wrrCexFirst, wrrCexSecond] =
      some (setWrrWeight wrrCexFirst) := by
    show some (if wrrWeight wrrCexFirst < wrrWeight wrrCexSecond
      then setWrrWeight wrrCexSecond else setWrrWeight wrrCexFirst) = _
    rw [hw1, hw2, if_neg (lt_irrefl _)]
  refine ⟨?_, rfl, rfl, ?_⟩
  · rw [hsel]
    rfl
  · show (91 : ℚ)/100 + 0/100 < 99/100 + 0/100
    norm_num

/-- C1 (amended): weighted-round-robin selection returns the first server of
maximal weight under `weight = (max(0.1, 1 − cpu/100) + max(0.1, 1 −
mem/100))/2` (ties broken by the first server in iteration order, and the
returned descriptor carries its recomputed weight); this coincides with
minimizing `cpu/100 + mem/100` whenever no healthy server exceeds 90 % on
either resource (so that neither clamp is active), but not in general. -/
theorem C1_amended_weighted_round_robin (hs : List ServerMetrics)
    (h : hs ≠ []) :
    ∃ s l1 l2, hs = l1 ++ s :: l2 ∧
      weighted_round_robin_select hs = some (setWrrWeight s) ∧
      (∀ y ∈ l1, wrrWeight y < wrrWeight s) ∧
      (∀ y ∈ hs, wrrWeight y ≤ wrrWeight s) ∧
      ((∀ y ∈ hs, y.cpu_percent ≤ 90 ∧ y.memory_percent ≤ 90) →
        (∀ y ∈ hs, resourceUsage s ≤ resourceUsage y) ∧
        (∀ y ∈ l1, resourceUsage s < resourceUsage y)) := by
  obtain ⟨r, l1, l2, hmax, hdec, hlt, hle⟩ := pyMaxBy_decomp wrrWeight hs h
  refine ⟨r, l1, l2, hdec, ?_, hlt, hle, ?_⟩
  · rw [wrr_select_eq, hmax]
    rfl
  · intro hcl
    have hr : r ∈ hs := by
      rw [hdec]
      exact List.mem_append_right _ (List.mem_cons_self _ _)
    have husage : ∀ y ∈ hs, wrrWeight y = 1 - resourceUsage y / 2 := by
      intro y hy
      rw [wrrWeight_of_no_clamp y (hcl y hy).1 (hcl y hy).2]
      rfl
    constructor
    · intro y hy
      have h1 := hle y hy
      rw [husage y hy, husage r hr] at h1
      linarith
    · intro y hy1
      have hy : y ∈ hs := by rw [hdec]; exact List.mem_append_left _ hy1
      have h1 := hlt y hy1
      rw [husage y hy, husage r hr] at h1
      linarith

/-- C1 (witness): the amended theorem applied to the concrete
two-server pool of the counterexample. -/
theorem C1_witness :
    ∃ s l1 l2, [wrrCexFirst, wrrCexSecond] = l1 ++ s :: l2 ∧
      weighted_round_robin_select [wrrCexFirst, wrrCexSecond] =
        some (setWrrWeight s) ∧
      (∀ y ∈ l1, wrrWeight y < wrrWeight s) ∧
      (∀ y ∈ [wrrCexFirst, wrrCexSecond], wrrWeight y ≤ wrrWeight s) ∧
      ((∀ y ∈ [wrrCexFirst, wrrCexSecond],
          y.cpu_percent ≤ 90 ∧ y.memory_percent ≤ 90) →
        (∀ y ∈ [wrrCexFirst, wrrCexSecond],
          resourceUsage s ≤ resourceUsage y) ∧
        (∀ y ∈ l1, resourceUsage s < resourceUsage y)) :=
  C1_amended_weighted_round_robin [wrrCexFirst, wrrCexSecond] (by decide)

/-- C2 (counterexample): with the pool `[latency 0, latency 50]` the first
server gets weight `1.0` and the second weight `1/50`, so selection
returns the never-probed first server `"a"`, not the server `"b"` that
has the strictly minimal positive `last_latency_ms` of the pool. -/
theorem C2_counterexample :
    (latency_weighted_select [latCexFirst, latCexSecond]).map
      (fun s => s.ip) = some "a" ∧
    latCexFirst.ip = "a" ∧ latCexSecond.ip = "b" ∧
    latCexFirst.last_latency_ms = 0 ∧
    0 < latCexSecond.last_latency_ms := by
  have hw1 : latWeight latCexFirst = 1 := by
    show (if (0:ℚ) < 0 then 1 / (0:ℚ) else 1) = 1
    rw [if_neg (lt_irrefl _)]
  have hw2 : latWeight latCexSecond = 1 / 50 := by
    show (if (0:ℚ) < 50 then 1 / (50:ℚ) else 1) = 1/50
    rw [if_pos (by norm_num)]
  have hsel : latency_weighted_select [latCexFirst, latCexSecond] =
      some (setLatWeight latCexFirst) := by
    rw [latency_select_eq _ (by simp)]
    show (some (if latWeight latCexFirst < latWeight latCexSecond
      then latCexSecond else latCexFirst)).map setLatWeight = _
    rw [hw1, hw2, if_neg (by norm_num)]
    rfl
  refine ⟨?_, rfl, rfl, rfl, ?_⟩
  · rw [hsel]
    rfl
  · show (0:ℚ) < 50
    norm_num

/-- C2 (amended): latency-weighted selection returns the first server of
maximal weight under `weight = 1/last_latency_ms` if positive else `1.0`
(ties broken by the first server in iteration order, the returned
descriptor carrying its recomputed weight); when every healthy server has
a positive recorded latency this is the first server of minimal
`last_latency_ms` — in particular the one with strictly minimal positive
latency when it is unique — but a server with `last_latency_ms ≤ 0` can
win over servers with latencies above 1 ms. -/
theorem C2_amended_latency_weighted (hs : List ServerMetrics)
    (h : hs ≠ []) :
    ∃ s l1 l2, hs = l1 ++ s :: l2 ∧
      latency_weighted_select hs = some (setLatWeight s) ∧
      (∀ y ∈ l1, latWeight y < latWeight s) ∧
      (∀ y ∈ hs, latWeight y ≤ latWeight s) ∧
      ((∀ y ∈ hs, 0 < y.last_latency_ms) →
        (∀ y ∈ hs, s.last_latency_ms ≤ y.last_latency_ms) ∧
        (∀ y ∈ l1, s.last_latency_ms < y.last_latency_ms)) := by
  obtain ⟨r, l1, l2, hmax, hdec, hlt, hle⟩ := pyMaxBy_decomp latWeight hs h
  refine ⟨r, l1, l2, hdec, ?_, hlt, hle, ?_⟩
  · rw [latency_select_eq hs h, hmax]
    rfl
  · intro hpos
    have hr : r ∈ hs := by
      rw [hdec]
      exact List.mem_append_right _ (List.mem_cons_self _ _)
    have hw : ∀ y ∈ hs, latWeight y = 1 / y.last_latency_ms := by
      intro y hy
      unfold latWeight
      rw [if_pos (hpos y hy)]
    constructor
    · intro y hy
      have h1 := hle y hy
      rw [hw y hy, hw r hr] at h1
      exact le_of_one_div_le_one_div (hpos y hy) h1
    · intro y hy1
      have hy : y ∈ hs := by rw [hdec]; exact List.mem_append_left _ hy1
      have h1 := hlt y hy1
      rw [hw y hy, hw r hr] at h1
      exact lt_of_one_div_lt_one_div (hpos y hy) h1

/-- C2 (witness): the amended theorem applied to the concrete
two-server pool of the counterexample. -/
theorem C2_witness :
    ∃ s l1 l2, [latCexFirst, latCexSecond] = l1 ++ s :: l2 ∧
      latency_weighted_select [latCexFirst, latCexSecond] =
        some (setLatWeight s) ∧
      (∀ y ∈ l1, latWeight y < latWeight s) ∧
      (∀ y ∈ [latCexFirst, latCexSecond], latWeight y ≤ latWeight s) ∧
      ((∀ y ∈ [latCexFirst, latCexSecond], 0 < y.last_latency_ms) →
        (∀ y ∈ [latCexFirst, latCexSecond],
          s.last_latency_ms ≤ y.last_latency_ms) ∧
        (∀ y ∈ l1, s.last_latency_ms < y.last_latency_ms)) :=
  C2_amended_latency_weighted [latCexFirst, latCexSecond] (by simp)

/-- C7: `record_request` with a registered server id sets exactly that
descriptor's `last_latency_ms`, bumps exactly its `total_requests` (the
update map touches no other field) and bumps its request count by one,
leaving every other descriptor, every other request count, the algorithm
and the cursor unchanged; an unknown id leaves the whole state equal. -/
theorem C7_record_request (lb : LoadBalancer) (sid : String)
    (latency_ms : ℚ) :
    (lb.servers.any (fun p => p.1 = sid) = true →
      dlookup sid (record_request lb sid latency_ms).servers =
        (dlookup sid lb.servers).map (recordUpd latency_ms) ∧
      (∀ sid', sid' ≠ sid →
        dlookup sid' (record_request lb sid latency_ms).servers =
          dlookup sid' lb.servers) ∧
      dlookup sid (record_request lb sid latency_ms).request_counts =
        some ((dlookup sid lb.request_counts).getD 0 + 1) ∧
      (∀ sid', sid' ≠ sid →
        dlookup sid' (record_request lb sid latency_ms).request_counts =
          dlookup sid' lb.request_counts) ∧
      (record_request lb sid latency_ms).current_algorithm =
        lb.current_algorithm ∧
      (record_request lb sid latency_ms).round_robin_index =
        lb.round_robin_index) ∧
    (lb.servers.any (fun p => p.1 = sid) = false →
      record_request lb sid latency_ms = lb) := by
  constructor
  · intro hknown
    have hrec : record_request lb sid latency_ms =
        { lb with
          servers := lb.servers.map (fun p =>
            if p.1 = sid then (p.1, recordUpd latency_ms p.2) else p),
          request_counts :=
            dictSet lb.request_counts sid
              ((dlookup sid lb.request_counts).getD 0 + 1) } := by
      unfold record_request
      rw [if_pos hknown]
    rw [hrec]
    refine ⟨?_, ?_, ?_, ?_, rfl, rfl⟩
    · exact dlookup_map_upd lb.servers sid _
    · intro sid' hne
      exact dlookup_map_ne lb.servers sid sid' hne _
    · exact dlookup_dictSet_self lb.request_counts sid _
    · intro sid' hne
      exact dlookup_dictSet_ne lb.request_counts sid sid' _ hne
  · intro hunknown
    unfold record_request
    rw [if_neg (by simp [hunknown])]

/-- C7 (witness): recording a request for the known id `"a:1"` in the
two-server registry, and a no-op for the unknown id `"z"`. -/
theorem C7_witness :
    (dlookup "a:1" (record_request lbTwo "a:1" 42).servers =
      (dlookup "a:1" lbTwo.servers).map (recordUpd 42) ∧
     dlookup "a:1" (record_request lbTwo "a:1" 42).request_counts =
      some ((dlookup "a:1" lbTwo.request_counts).getD 0 + 1)) ∧
    record_request lbTwo "z" 7 = lbTwo := by
  have h1 := (C7_record_request lbTwo "a:1" 42).1 (by decide)
  have h2 := (C7_record_request lbTwo "z" 7).2 (by decide)
  exact ⟨⟨h1.1, h1.2.2.1⟩, h2⟩

/-- C10: the registry built by the constructor is keyed by the
`"host:port"` id string: its keys are exactly the ids of the configured
pairs with no duplicate key, its size is the number of distinct ids (not
the input length), and every stored descriptor is freshly initialized
(`healthy = true`, `weight = 1`, zero `total_requests`) with a zero
request count registered under its id. -/
theorem C10_registry_init (l : List (String × Int)) :
    ((LoadBalancer.init l).servers.map Prod.fst).Nodup ∧
    (∀ a, a ∈ (LoadBalancer.init l).servers.map Prod.fst ↔
      a ∈ l.map (fun p => serverId p.1 p.2)) ∧
    (LoadBalancer.init l).servers.length =
      (l.map (fun p => serverId p.1 p.2)).toFinset.card ∧
    (∀ p ∈ (LoadBalancer.init l).servers,
      p.2.healthy = true ∧ p.2.weight = 1 ∧ p.2.total_requests = 0 ∧
      dlookup p.1 (LoadBalancer.init l).request_counts = some 0) := by
  refine ⟨?_, ?_, ?_, ?_⟩
  · exact fold_dictSet_nodup (fun p => serverId p.1 p.2)
      (fun p => freshMetrics p.1 p.2) l [] (by simp)
  · intro a
    have := fold_dictSet_mem_keys (fun p => serverId p.1 p.2)
      (fun p => freshMetrics p.1 p.2) l [] a
    simpa using this
  · have := fold_dictSet_length (fun p => serverId p.1 p.2)
      (fun p => freshMetrics p.1 p.2) l [] (by simp)
    simpa using this
  · intro p hp
    have hQ := fold_dictSet_values (fun p => serverId p.1 p.2)
      (fun p => freshMetrics p.1 p.2)
      (fun q => q.2.healthy = true ∧ q.2.weight = 1 ∧ q.2.total_requests = 0)
      (fun _ => ⟨rfl, rfl, rfl⟩) l [] (by simp) p hp
    refine ⟨hQ.1, hQ.2.1, hQ.2.2, ?_⟩
    have hall0 : ∀ q ∈ (LoadBalancer.init l).request_counts,
        q.2 = (0 : Int) :=
      fold_dictSet_values (fun p => serverId p.1 p.2) (fun _ => (0 : Int))
        (fun q => q.2 = 0) (fun _ => rfl) l [] (by simp)
    have h1 : p.1 ∈ (LoadBalancer.init l).servers.map Prod.fst :=
      List.mem_map.mpr ⟨p, hp, rfl⟩
    have h2 := (fold_dictSet_mem_keys (fun p => serverId p.1 p.2)
      (fun p => freshMetrics p.1 p.2) l [] p.1).mp h1
    have h3 := (fold_dictSet_mem_keys (fun p => serverId p.1 p.2)
      (fun _ => (0 : Int)) l [] p.1).mpr h2
    exact dlookup_of_all_zero _ p.1 hall0 h3

/-- C10 (witness): a pool with a duplicate pair collapses to two registry
entries, and the duplicated id is registered with a zero request count
and a fresh healthy descriptor. -/
theorem C10_witness :
    (LoadBalancer.init witnessPool).servers.length =
      (witnessPool.map (fun p => serverId p.1 p.2)).toFinset.card ∧
    ((⟨"a:1", freshMetrics "a" 1⟩ : String × ServerMetrics).2.healthy = true ∧
     (⟨"a:1", freshMetrics "a" 1⟩ : String × ServerMetrics).2.weight = 1 ∧
     (⟨"a:1", freshMetrics "a" 1⟩ : String × ServerMetrics).2.total_requests = 0 ∧
     dlookup "a:1" (LoadBalancer.init witnessPool).request_counts = some 0) := by
  have h := C10_registry_init witnessPool
  exact ⟨h.2.2.1, h.2.2.2 ("a:1", freshMetrics "a" 1) (by decide)⟩

/-- C4: against a fixed non-empty healthy list of length N and any starting
cursor, each `_round_robin_select` call advances the shared cursor by
exactly one, the k-th of 2N consecutive selections is the entry at index
`(start + k) mod N` (cycling in registry insertion order), and each
backend is selected exactly twice among those 2N calls. -/
theorem C4_round_robin_cycle (servers : List ServerMetrics)
    (h1 : servers ≠ []) (h2 : servers.Nodup) (i0 j : Nat)
    (hj : j < servers.length) :
    (round_robin_select servers i0).2 = i0 + 1 ∧
    (rrRun servers i0 (2 * servers.length)).2 = i0 + 2 * servers.length ∧
    (∀ k, k < 2 * servers.length →
      (rrRun servers i0 (2 * servers.length)).1.get? k =
        some (servers.get? ((i0 + k) % servers.length))) ∧
    ((Finset.range (2 * servers.length)).filter
      (fun k => (rrRun servers i0 (2 * servers.length)).1.get? k =
        some (some (servers.get ⟨j, hj⟩)))).card = 2 := by
  have hchar := rrRun_char servers h1 (2 * servers.length) i0
  have hN : 0 < servers.length := List.length_pos.mpr h1
  refine ⟨?_, ?_, ?_, ?_⟩
  · rw [round_robin_select_eq servers h1 i0]
  · rw [hchar]
  · intro k hk
    rw [hchar, List.get?_map, List.get?_range hk]
    rfl
  · have hpred : ∀ k ∈ Finset.range (2 * servers.length),
        ((rrRun servers i0 (2 * servers.length)).1.get? k =
          some (some (servers.get ⟨j, hj⟩))) ↔
        ((i0 + k) % servers.length = j) := by
      intro k hk
      rw [Finset.mem_range] at hk
      rw [hchar, List.get?_map, List.get?_range hk]
      constructor
      · intro hg
        have hg2 : servers.get? ((i0 + k) % servers.length) =
            some (servers.get ⟨j, hj⟩) := Option.some.inj hg
        have hlt : (i0 + k) % servers.length < servers.length :=
          Nat.mod_lt _ hN
        rw [List.get?_eq_get hlt] at hg2
        have hg3 := Option.some.inj hg2
        have hfin : (⟨(i0 + k) % servers.length, hlt⟩ :
            Fin servers.length) = ⟨j, hj⟩ :=
          (List.Nodup.get_inj_iff h2).mp hg3
        exact congrArg Fin.val hfin
      · intro hg
        show some (servers.get? ((i0 + k) % servers.length)) = _
        rw [hg, List.get?_eq_get hj]
    rw [Finset.filter_congr hpred]
    exact count_mod_hits servers.length i0 j hN hj

/-- C4 (witness): two distinct servers, starting cursor 3; four selections
advance the cursor to 7 and pick the second server exactly twice. -/
theorem C4_witness :
    (round_robin_select [freshMetrics "a" 1, freshMetrics "b" 2] 3).2 = 4 ∧
    (rrRun [freshMetrics "a" 1, freshMetrics "b" 2] 3 4).2 = 7 ∧
    ((Finset.range 4).filter
      (fun k => (rrRun [freshMetrics "a" 1, freshMetrics "b" 2] 3 4).1.get? k =
        some (some ([freshMetrics "a" 1, freshMetrics "b" 2].get
          ⟨1, by norm_num⟩)))).card = 2 := by
  have h := C4_round_robin_cycle [freshMetrics "a" 1, freshMetrics "b" 2]
    (by simp) (by decide) 3 1 (by norm_num)
  exact ⟨h.1, h.2.1, h.2.2.2⟩

/-- C8: whatever the policy, a returned backend always has `healthy = true`
(unhealthy servers are filtered out of every candidate set), and when the
healthy snapshot is a single server every policy returns exactly that
server (up to the transient recomputed `weight` scratch field),
regardless of its metrics. -/
theorem C8_healthy_only (lb : LoadBalancer) (r x : ServerMetrics) :
    ((select_server lb).1 = some r → r.healthy = true) ∧
    (healthy_servers lb = [x] →
      ((select_server lb).1).map stripWeight = some (stripWeight x)) := by
  constructor
  · intro h
    cases he : (healthy_servers lb).isEmpty with
    | true => simp [select_server, he] at h
    | false =>
      have hne : healthy_servers lb ≠ [] := by
        intro hc
        rw [hc] at he
        simp at he
      cases halg : lb.current_algorithm with
      | round_robin =>
        simp only [select_server, he, Bool.false_eq_true, if_false,
          halg] at h
        rw [round_robin_select_eq _ hne] at h
        exact healthy_servers_healthy lb r (List.get?_mem h)
      | least_connections =>
        simp only [select_server, he, Bool.false_eq_true, if_false,
          halg] at h
        exact healthy_servers_healthy lb r (pyMinBy_mem _ _ r h)
      | latency_weighted =>
        simp only [select_server, he, Bool.false_eq_true, if_false,
          halg] at h
        obtain ⟨s, hsm, rfl⟩ := latency_select_mem _ r h
        rw [setLatWeight_healthy]
        exact healthy_servers_healthy lb s hsm
      | weighted_round_robin =>
        simp only [select_server, he, Bool.false_eq_true, if_false,
          halg] at h
        obtain ⟨s, hsm, rfl⟩ := wrr_select_mem _ r h
        rw [setWrrWeight_healthy]
        exact healthy_servers_healthy lb s hsm
  · intro hx
    cases halg : lb.current_algorithm with
    | round_robin =>
      have hsel : (select_server lb).1 = some x := by
        simp only [select_server, hx, halg, List.isEmpty_cons,
          Bool.false_eq_true, if_false]
        rw [round_robin_select_eq [x] (by simp)]
        simp [Nat.mod_one]
      rw [hsel]
      rfl
    | least_connections =>
      have hsel : (select_server lb).1 = some x := by
        simp only [select_server, hx, halg, List.isEmpty_cons,
          Bool.false_eq_true, if_false]
        rfl
      rw [hsel]
      rfl
    | latency_weighted =>
      have hsel : (select_server lb).1 = some (setLatWeight x) := by
        simp only [select_server, hx, halg, List.isEmpty_cons,
          Bool.false_eq_true, if_false]
        exact latency_select_single x
      rw [hsel]
      show some (stripWeight (setLatWeight x)) = some (stripWeight x)
      rw [stripWeight_setLatWeight]
    | weighted_round_robin =>
      have hsel : (select_server lb).1 = some (setWrrWeight x) := by
        simp only [select_server, hx, halg, List.isEmpty_cons,
          Bool.false_eq_true, if_false]
        rfl
      rw [hsel]
      show some (stripWeight (setWrrWeight x)) = some (stripWeight x)
      rw [stripWeight_setWrrWeight]

/-- C8 (witness): with two servers of which only `"b:2"` is healthy, the
selected backend is healthy and is that server. -/
theorem C8_witness :
    ((select_server lbOneHealthy).1).map stripWeight =
      some (stripWeight (freshMetrics "b" 2)) ∧
    (freshMetrics "b" 2).healthy = true :=
  ⟨(C8_healthy_only lbOneHealthy (freshMetrics "b" 2)
      (freshMetrics "b" 2)).2 (by decide),
   (C8_healthy_only lbOneHealthy (freshMetrics "b" 2)
      (freshMetrics "b" 2)).1 (by decide)⟩

end Cloud
